import Mathlib

/-!
Verification of the `DataSource` core of the biome-data repository
(`src/biome/data/sources/datasource.py`), via a shallow embedding:
pandas/dask cell values become an inductive `Value` type, dataframes become
lists of rows with named columns, Python dicts become association lists with
insertion-order/last-value-wins semantics, and fallible code returns `Except`.
-/

deriving instance DecidableEq for Except

namespace BiomeData

/-- A cell value of a dataframe or a value inside a row record.
`na` models a pandas missing value (NaN), `record` models the nested
dict produced when several source columns are folded into one cell. -/
inductive Value where
  | na : Value
  | str : String → Value
  | int : Int → Value
  | record : List (String × Value) → Value

/-- `True`/`false` test for missing values, mirroring pandas `isna` on cells. -/
def Value.isNA : Value → Bool
  | .na => true
  | _ => false

/-! ## Python dict semantics on association lists

A Python `dict` preserves insertion order; assigning to an existing key keeps
its position and replaces the value.  We model dicts as association lists with
unique keys maintained by `pyDictInsert`. -/

/-- `d[k] = v` on a Python dict: replace the value at the first occurrence of
`k` keeping its position, or append `(k, v)` at the end. -/
def pyDictInsert {α : Type} (d : List (String × α)) (k : String) (v : α) :
    List (String × α) :=
  match d with
  | [] => [(k, v)]
  | p :: rest => if p.1 = k then (k, v) :: rest else p :: pyDictInsert rest k v

/-- `d.get(k)` on a Python dict (returning `none` when absent). -/
def pyGet? {α : Type} (d : List (String × α)) (k : String) : Option α :=
  match d with
  | [] => none
  | p :: rest => if p.1 = k then some p.2 else pyGet? rest k

/-- `d.get(k, dflt)` on a Python dict. -/
def pyDictGet {α : Type} (d : List (String × α)) (k : String) (dflt : α) : α :=
  (pyGet? d k).getD dflt

/-- `dict(pairs)`: build a dict from a pair list; on duplicate keys the last
value wins but the first occurrence fixes the position. -/
def pyDict {α : Type} (l : List (String × α)) : List (String × α) :=
  l.foldl (fun d p => pyDictInsert d p.1 p.2) []

/-- `del d[k]` / `d.pop(k)` effect on the remaining dict. -/
def pyDictRemove {α : Type} (d : List (String × α)) (k : String) :
    List (String × α) :=
  d.filter (fun p => p.1 ≠ k)

/-! ## Python string helpers used by the source -/

/-- `str.strip()` on the character list: drop whitespace from both ends. -/
def stripChars (l : List Char) : List Char :=
  ((l.dropWhile Char.isWhitespace).reverse.dropWhile Char.isWhitespace).reverse

/-- `column.strip()`: trim surrounding whitespace of a column name. -/
def pyStrip (s : String) : String :=
  String.mk (stripChars s.toList)

/-- `column.replace(".", "_")`: a single-character replacement is a `map`. -/
def replaceDots (s : String) : String :=
  String.mk (s.toList.map (fun c => if c = '.' then '_' else c))

/-- `format.lower()` (ASCII lowering, as used on format keys). -/
def pyLower (s : String) : String :=
  String.mk (s.toList.map Char.toLower)

/-- `str(x)` for an optional string: Python renders `None` as `"None"`. -/
def pyStr : Option String → String
  | none => "None"
  | some s => s

/-! ## Reserved column names

Modelled from the spec: the constants `ID`, `RESOURCE` and `PATH_COLUMN_NAME`
are imported by `datasource.py` from the `readers` module, which is not among
the sources.  The spec reserves `id` for row identity, a resource/provenance
field name, and a path-column name recognized for legacy provenance fallback;
the repository's tests read a `path` column. -/

/-- Modelled from the spec: the reserved row-identity field name. -/
def ID : String := "id"

/-- Modelled from the spec: the reserved provenance/resource field name. -/
def RESOURCE : String := "resource"

/-- Modelled from the spec: the legacy path column recognized as provenance. -/
def PATH_COLUMN_NAME : String := "path"

/-! ## `DataSource._row2dict` -/

/-- `DataSource._row2dict(row, columns, default_path)`: the row tuple is
`(index, value, ...)`; column names have `.` replaced by `_`; the record is
built as a dict from the identity pair followed by the zipped columns, and the
provenance field is `data.get(RESOURCE, data.get(PATH_COLUMN_NAME,
str(default_path)))`. -/
def row2dict (row : Value × List Value) (columns : List String)
    (default_path : Option String) : List (String × Value) :=
  let sanitized_columns := columns.map replaceDots
  let data := pyDict ((ID, row.1) :: sanitized_columns.zip row.2)
  pyDictInsert data RESOURCE
    (pyDictGet data RESOURCE
      (pyDictGet data PATH_COLUMN_NAME (Value.str (pyStr default_path))))

/-! ## `os.path.splitext` and format resolution -/

/-- Index of the last occurrence of `c` in `l` (Python `str.rfind`). -/
def lastIdxOf (c : Char) (l : List Char) : Option Nat :=
  match l with
  | [] => none
  | a :: rest =>
    match lastIdxOf c rest with
    | some i => some (i + 1)
    | none => if a = c then some 0 else none

/-- `os.path.splitext` (posix): split at the last dot of the basename, unless
every character between the last separator and that dot is itself a dot
(leading dots of a basename never start an extension). -/
def splitext (p : List Char) : List Char × List Char :=
  let sepIndex : Int := match lastIdxOf '/' p with | some i => (i : Int) | none => -1
  let dotIndex : Int := match lastIdxOf '.' p with | some i => (i : Int) | none => -1
  if sepIndex < dotIndex then
    let stem := (p.drop (sepIndex + 1).toNat).take (dotIndex - sepIndex - 1).toNat
    if stem.any (fun ch => ch ≠ '.') then
      (p.take dotIndex.toNat, p.drop dotIndex.toNat)
    else (p, [])
  else (p, [])

/-- The basename of a posix path: everything after the last separator.
Used only to state the spec's words about format keys. -/
def basenameChars (p : List Char) : List Char :=
  match lastIdxOf '/' p with
  | some i => p.drop (i + 1)
  | none => p

/-- One step of `DataSource.__format_from_source`: for a single path,
`extension[1:] if extension else name` where
`name, extension = os.path.splitext(src)`. -/
def inferredFormatKey (src : String) : String :=
  let pr := splitext src.toList
  if pr.2.isEmpty then String.mk pr.1 else String.mk (pr.2.drop 1)

/-- Refinement comparison only: the format key as the SPEC's words describe
it — "if an extension exists, the format key is the extension (without the
dot); otherwise the format key is the full basename". -/
def specFormatKey (src : String) : String :=
  let pr := splitext src.toList
  if pr.2.isEmpty then String.mk (basenameChars src.toList)
  else String.mk (pr.2.drop 1)

/-- The `source` constructor argument: a single path string or a list of
paths (a symbolic backend name is also just a string). -/
inductive SourceSpec where
  | str (s : String)
  | list (l : List String)
deriving DecidableEq

/-- Python truthiness of a source value (`""` and `[]` are falsy). -/
def SourceSpec.truthy : SourceSpec → Bool
  | .str s => !s.isEmpty
  | .list l => !l.isEmpty

/-- Errors raised on the modelled paths of `DataSource`. -/
inductive DsError where
  /-- `AttributeError`: `_find_reader` calls `.lower()` on a `None` format. -/
  | noneFormat
  /-- `TypeError` listing the supported format keys. -/
  | unsupportedFormat (format : String) (supported : List String)
  /-- `TypeError` "source must be homogeneous" with the distinct keys. -/
  | heterogeneousSource (formats : List String)
  /-- `ValueError` "For a mapped DataFrame you need to specify a mapping!". -/
  | missingMapping
  /-- `KeyError` re-raised by `to_mapped_dataframe`, wrapping the missing
  labels and the message naming the requested features and the columns. -/
  | unknownColumn (missing requested available : List String)
deriving DecidableEq

/-- `DataSource.__format_from_source`: normalize to a path list, infer one
key per path, deduplicate (`set`), and demand exactly one distinct key. -/
def formatFromSource (source : SourceSpec) : Except DsError String :=
  let srcs := match source with | .str s => [s] | .list l => l
  let formats := srcs.map inferredFormatKey
  match formats.dedup with
  | [k] => .ok k
  | other => .error (.heterogeneousSource other)

/-- The keys of `DataSource.SUPPORTED_FORMATS`, in declaration order.  The
reader callables and their default parameters live in the missing `readers`
module and are not modelled; the elasticsearch key string is modelled from
the spec (the class docstring names the `elasticsearch` backend). -/
def SUPPORTED_FORMAT_KEYS : List String :=
  ["xls", "xlsx", "csv", "json", "jsonl", "json-l", "parquet", "elasticsearch"]

/-- `source_format.lower().strip()` as in `DataSource._find_reader`. -/
def cleanFormat (s : String) : String :=
  pyStrip (pyLower s)

/-- `DataSource._find_reader`: `None` has no `.lower()` (an `AttributeError`
that the `except KeyError` clause does not catch); otherwise the normalized
key is looked up and a miss raises the `TypeError` listing all keys.  The
`ok` value stands for the `(reader, defaults)` registry entry selected. -/
def find_reader (source_format : Option String) : Except DsError String :=
  match source_format with
  | none => .error .noneFormat
  | some f =>
    let clean := cleanFormat f
    if SUPPORTED_FORMAT_KEYS.contains clean then .ok clean
    else .error (.unsupportedFormat f SUPPORTED_FORMAT_KEYS)

/-- Python truthiness of the optional `format` argument. -/
def optFormatFalsy : Option String → Bool
  | none => true
  | some s => s.isEmpty

/-- Python truthiness of the optional `source` argument. -/
def optSourceTruthy : Option SourceSpec → Bool
  | none => false
  | some s => s.truthy

/-- The format-resolution part of `DataSource.__init__`:
`if not format and source: format = self.__format_from_source(source)`
followed by `self._find_reader(format)`.  Reading the data itself is done by
the selected external reader and is not modelled. -/
def dsInit (source : Option SourceSpec) (format : Option String) :
    Except DsError String :=
  let resolved : Except DsError (Option String) :=
    if optFormatFalsy format && optSourceTruthy source then
      match source with
      | some s => (formatFromSource s).map some
      | none => .ok format
    else .ok format
  match resolved with
  | .error e => .error e
  | .ok fmt => find_reader fmt

/-! ## `DataSource._make_backward_compatible` -/

/-- A value of the mapping dict of a data source yml: a plain column
reference, a list of column references, or a legacy nested specification. -/
inductive MappingVal where
  | str (s : String)
  | list (l : List String)
  | dict (d : List (String × String))
deriving DecidableEq

/-- Deprecation warnings emitted by `_make_backward_compatible`. -/
inductive BCWarning where
  /-- "The 'target' key is deprecated!" -/
  | deprecatedTarget
  /-- "Please use the mapping format for the 'label' key in the future." -/
  | deprecatedLabelDict
deriving DecidableEq

/-- Exceptions raised by `_make_backward_compatible`. -/
inductive BCError where
  /-- `RuntimeError("Cannot find the 'label' value in the given format!")` -/
  | labelResolution
  /-- `raise DeprecationWarning("The 'metadata_file' functionality is
  deprecated, ...")` -/
  | metadataFileUnsupported
deriving DecidableEq

/-- Python `x or y` on optional strings coming from `dict.get`: `None` and
`""` are falsy and fall through to the right operand. -/
def pyOrStr (a b : Option String) : Option String :=
  match a with
  | some s => if s.isEmpty then b else some s
  | none => b

/-- `DataSource._make_backward_compatible(mapping)`: rename a `target` key to
`label` (when no `label` exists) with a deprecation warning; when `label` is
a nested dict, resolve the column reference from the sub-keys `name`,
`label`, `gold_label`, `field` in that order (`or`-chained, so empty strings
also fall through), raise `RuntimeError` when none resolves, and only then
reject a present `metadata_file` sub-key.  Warnings are collected in order. -/
def make_backward_compatible (mapping : List (String × MappingVal)) :
    Except BCError (List (String × MappingVal) × List BCWarning) :=
  let step1 :=
    if (pyGet? mapping "target").isSome && (pyGet? mapping "label").isNone then
      match pyGet? mapping "target" with
      | some v =>
        (pyDictInsert (pyDictRemove mapping "target") "label" v,
         [BCWarning.deprecatedTarget])
      | none => (mapping, [])
    else (mapping, [])
  let mapping := step1.1
  let warnings := step1.2
  match pyGet? mapping "label" with
  | some (.dict label_dict) =>
    let warnings := warnings ++ [BCWarning.deprecatedLabelDict]
    let label_key :=
      pyOrStr (pyGet? label_dict "name")
        (pyOrStr (pyGet? label_dict "label")
          (pyOrStr (pyGet? label_dict "gold_label") (pyGet? label_dict "field")))
    match label_key with
    | some s =>
      if s.isEmpty then .error .labelResolution
      else
        let mapping := pyDictInsert mapping "label" (.str s)
        if (pyGet? label_dict "metadata_file").isSome then
          .error .metadataFileUnsupported
        else .ok (mapping, warnings)
    | none => .error .labelResolution
  | _ => .ok (mapping, warnings)

/-! ## Dataframes and `DataSource.__sanitize_dataframe` -/

/-- A dataframe: named columns and rows, each row an identity index paired
with its cells (one per column). -/
structure DataFrame where
  columns : List String
  rows : List (Value × List Value)

/-- A row has exactly one cell per column. -/
def DataFrame.WF (df : DataFrame) : Prop :=
  ∀ r ∈ df.rows, r.2.length = df.columns.length

/-- The `fillna(value="")` effect on one cell of one column;
`fillable` tells whether the column's dtype accepts the substitution (the
`except ValueError` branch of the source leaves the column as-is). -/
def fillCell (fillable : String → Bool) (col : String) (v : Value) : Value :=
  if fillable col && v.isNA then Value.str "" else v

/-- `DataSource.__sanitize_dataframe`: drop the rows whose cells are all
missing, strip the column names, then fill missing cells with `""` column by
column (columns rejected by `fillable` keep their missing values). -/
def sanitizeDF (fillable : String → Bool) (df : DataFrame) : DataFrame :=
  let dropped := df.rows.filter (fun r => !r.2.all Value.isNA)
  let cols := df.columns.map pyStrip
  { columns := cols,
    rows := dropped.map (fun r =>
      (r.1, (cols.zip r.2).map (fun p => fillCell fillable p.1 p.2))) }

/-! ## `DataSource.to_mapped_dataframe` -/

/-- A mapping value after the `isinstance(data_features, (str, int))`
normalization point: either a scalar column reference or a list of them. -/
inductive FeatureSpec where
  | single (c : String)
  | many (cs : List String)
deriving DecidableEq

/-- `[data_features]` for a scalar, the list itself otherwise. -/
def FeatureSpec.toList : FeatureSpec → List String
  | .single c => [c]
  | .many cs => cs

/-- A constructed data source: its sanitized dataframe and its mapping. -/
structure DataSourceState where
  df : DataFrame
  mapping : List (String × FeatureSpec)

/-- First index of a column label (pandas label lookup). -/
def colIdx? (cols : List String) (k : String) : Option Nat :=
  match cols with
  | [] => none
  | c :: rest => if c = k then some 0 else (colIdx? rest k).map (fun i => i + 1)

/-- The cell of a row under a column label (`Value.na` when absent —
unreached on the modelled paths, which check membership first). -/
def rowCell (cols : List String) (cells : List Value) (k : String) : Value :=
  match colIdx? cols k with
  | some i => cells.getD i Value.na
  | none => Value.na

/-- The row of `self._df[data_features]` for one source row: one
`(column name, cell)` pair per requested feature. -/
def selRow (cols : List String) (cells : List Value) (feats : List String) :
    List (String × Value) :=
  feats.map (fun f => (f, rowCell cols cells f))

/-- `DataSource._to_dict_or_any(value)`: a selection longer than one becomes
its `to_dict()` (a Python dict, hence `pyDict`), otherwise `value.iloc[0]`
(`iloc[0]` of an empty selection only fails at materialization; that
unreached case is modelled as a missing value). -/
def toDictOrAny (value : List (String × Value)) : Value :=
  if 1 < value.length then Value.record (pyDict value)
  else
    match value with
    | [] => Value.na
    | p :: _ => p.2

/-- The new cells for one mapping entry, one per row of the source frame. -/
def newColCells (df0 : DataFrame) (feats : List String) : List Value :=
  df0.rows.map (fun r => toDictOrAny (selRow df0.columns r.2 feats))

/-- `mapped_dataframe[parameter_name] = ...`: assign a column, overwriting
the first column of that label in place or appending a new one. -/
def dfSetColumn (df : DataFrame) (name : String) (vals : List Value) :
    DataFrame :=
  match colIdx? df.columns name with
  | some i =>
    { columns := df.columns,
      rows := (df.rows.zip vals).map (fun rv => (rv.1.1, rv.1.2.set i rv.2)) }
  | none =>
    { columns := df.columns ++ [name],
      rows := (df.rows.zip vals).map (fun rv => (rv.1.1, rv.1.2 ++ [rv.2])) }

/-- `mapped_dataframe[list(self.mapping.keys())]`: project onto the given
labels, in order. -/
def dfProject (df : DataFrame) (keys : List String) : DataFrame :=
  { columns := keys,
    rows := df.rows.map (fun r => (r.1, keys.map (rowCell df.columns r.2))) }

/-- One iteration of the mapping loop of `to_mapped_dataframe`: check that
every requested feature is a column of the source frame (`self._df`, not the
accumulating copy), then assign the applied column; a missing label raises
the re-wrapped `KeyError` naming the requested features and the columns. -/
def mapStep (df0 : DataFrame) (acc : Except DsError DataFrame)
    (e : String × FeatureSpec) : Except DsError DataFrame :=
  match acc with
  | .error err => .error err
  | .ok mdf =>
    let feats := e.2.toList
    let missing := feats.filter (fun c => !df0.columns.contains c)
    if missing.isEmpty then
      .ok (dfSetColumn mdf e.1 (newColCells df0 feats))
    else .error (.unknownColumn missing feats df0.columns)

/-- `DataSource.to_mapped_dataframe`: demand a mapping, copy the frame, add
one column per mapping entry (each computed from the original frame), and
project onto the mapping keys.  The second component is the state after the
call: the underlying frame is only ever copied, never written. -/
def to_mapped_dataframe (ds : DataSourceState) :
    Except DsError DataFrame × DataSourceState :=
  if ds.mapping.isEmpty then (.error .missingMapping, ds)
  else
    let res := ds.mapping.foldl (mapStep ds.df) (.ok ds.df)
    (res.map (fun mdf => dfProject mdf (ds.mapping.map Prod.fst)), ds)

/-! ## `DataSource.to_bag` and `DataSource.to_mapped_bag` -/

/-- `DataSource.to_bag`: strip the column names once, then convert each row
with `_row2dict`; no `default_path` is passed. -/
def to_bag (df : DataFrame) : List (List (String × Value)) :=
  let dict_keys := df.columns.map pyStrip
  df.rows.map (fun r => row2dict r dict_keys none)

/-- `DataSource.to_mapped_bag`: same conversion applied to the mapped frame. -/
def to_mapped_bag (ds : DataSourceState) :
    Except DsError (List (List (String × Value))) × DataSourceState :=
  match to_mapped_dataframe ds with
  | (.error e, s) => (.error e, s)
  | (.ok mdf, s) =>
    let dict_keys := mdf.columns.map pyStrip
    (.ok (mdf.rows.map (fun r => row2dict r dict_keys none)), s)

/-- One iteration of the mapping loop on the success path (the dataframe part
of `mapStep`, used to characterize the fold). -/
def setStep (df0 : DataFrame) (acc : DataFrame) (e : String × FeatureSpec) :
    DataFrame :=
  dfSetColumn acc e.1 (newColCells df0 e.2.toList)

/-- The copy of the source frame accumulated by `to_mapped_dataframe` keeps
one row per source row, each with one cell per (current) column. -/
def Shaped (df0 acc : DataFrame) : Prop :=
  acc.rows.length = df0.rows.length ∧
    ∀ r ∈ acc.rows, r.2.length = acc.columns.length

/-! # Theorems -/

/-! ## String helper lemmas -/

theorem dropWhile_head?_not (p : Char → Bool) (l : List Char) :
    ∀ a, (l.dropWhile p).head? = some a → p a = false := by
  induction l with
  | nil => intro a h; simp at h
  | cons x t ih =>
    intro a h
    by_cases hx : p x
    · rw [List.dropWhile_cons_of_pos hx] at h
      exact ih a h
    · rw [List.dropWhile_cons_of_neg hx] at h
      simp at h
      subst h
      exact Bool.eq_false_iff.mpr hx

theorem dropWhile_eq_self_of_head (p : Char → Bool) (l : List Char)
    (h : ∀ a, l.head? = some a → p a = false) : l.dropWhile p = l := by
  cases l with
  | nil => rfl
  | cons x t =>
    have hx : p x = false := h x rfl
    simp [List.dropWhile_cons, hx]

theorem stripChars_idem (l : List Char) :
    stripChars (stripChars l) = stripChars l := by
  set p := Char.isWhitespace with hp
  set l1 := l.dropWhile p with hl1
  set l2 := l1.reverse.dropWhile p with hl2
  have hstrip : stripChars l = l2.reverse := rfl
  -- l2.reverse is a prefix of l1
  have hdecomp : l1.reverse = l1.reverse.takeWhile p ++ l2 :=
    (List.takeWhile_append_dropWhile p l1.reverse).symm
  have hpre : l1 = l2.reverse ++ (l1.reverse.takeWhile p).reverse := by
    have := congrArg List.reverse hdecomp
    simpa [List.reverse_append] using this
  have hhead1 : ∀ a, l1.head? = some a → p a = false :=
    fun a ha => dropWhile_head?_not p l a ha
  have hhead2 : ∀ a, l2.head? = some a → p a = false :=
    fun a ha => dropWhile_head?_not p l1.reverse a ha
  have hheadrev : ∀ a, l2.reverse.head? = some a → p a = false := by
    intro a ha
    apply hhead1
    rw [hpre, List.head?_append, ha]
    rfl
  have step1 : l2.reverse.dropWhile p = l2.reverse :=
    dropWhile_eq_self_of_head p _ hheadrev
  have step2 : l2.dropWhile p = l2 :=
    dropWhile_eq_self_of_head p _ hhead2
  calc stripChars (stripChars l)
      = ((l2.reverse.dropWhile p).reverse.dropWhile p).reverse := rfl
    _ = (l2.dropWhile p).reverse := by rw [step1, List.reverse_reverse]
    _ = l2.reverse := by rw [step2]
    _ = stripChars l := rfl

theorem pyStrip_idem (s : String) : pyStrip (pyStrip s) = pyStrip s :=
  congrArg String.mk (stripChars_idem s.toList)

/-! ## Sanitizer lemmas and C5 -/

theorem fillCell_idem (fb : String → Bool) (c : String) (v : Value) :
    fillCell fb c (fillCell fb c v) = fillCell fb c v := by
  by_cases h : (fb c && v.isNA) = true
  · simp only [fillCell, h, if_true]
    have : (fb c && (Value.str "").isNA) = false := by simp [Value.isNA]
    simp [this]
  · have h' : (fb c && v.isNA) = false := Bool.eq_false_iff.mpr h
    simp [fillCell, h']

theorem fill_row_idem (fb : String → Bool) :
    ∀ (cols : List String) (cells : List Value),
      (cols.zip ((cols.zip cells).map
          (fun p => fillCell fb p.1 p.2))).map (fun p => fillCell fb p.1 p.2)
        = (cols.zip cells).map (fun p => fillCell fb p.1 p.2) := by
  intro cols
  induction cols with
  | nil => intro cells; simp
  | cons c t ih =>
    intro cells
    cases cells with
    | nil => simp
    | cons v vs =>
      simp only [List.zip_cons_cons, List.map_cons]
      rw [fillCell_idem]
      rw [ih vs]

theorem fill_row_keeps_some_value (fb : String → Bool) (cols : List String)
    (cells : List Value) (hlen : cells.length = cols.length)
    (hkeep : cells.all Value.isNA = false) :
    ((cols.zip cells).map (fun p => fillCell fb p.1 p.2)).all Value.isNA
      = false := by
  rw [List.all_eq_false] at hkeep ⊢
  obtain ⟨x, hx, hxna⟩ := hkeep
  obtain ⟨i, hi, hix⟩ := List.mem_iff_getElem.mp hx
  have hizip : i < (cols.zip cells).length := by
    rw [List.length_zip]
    omega
  have himap : i < ((cols.zip cells).map
      (fun p => fillCell fb p.1 p.2)).length := by simpa using hizip
  refine ⟨((cols.zip cells).map (fun p => fillCell fb p.1 p.2))[i],
    List.getElem_mem himap, ?_⟩
  have hval : ((cols.zip cells).map (fun p => fillCell fb p.1 p.2))[i]
      = fillCell fb (cols.zip cells)[i].1 (cols.zip cells)[i].2 := by
    simp
  have hsnd : (cols.zip cells)[i].2 = x := by
    rw [List.getElem_zip]
    simpa using hix
  rw [hval, hsnd]
  simp only [fillCell]
  have : Value.isNA x = false := by simpa using hxna
  simp [this]

/-- C5.  Sanitization is idempotent: re-sanitizing an already-sanitized
dataframe removes no further rows and changes no column names (indeed it is
the identity on the sanitized frame), for every column-substitution outcome
`fb` of the per-column `fillna` attempt. -/
theorem sanitize_idempotent (fb : String → Bool) (df : DataFrame)
    (hwf : df.WF) : sanitizeDF fb (sanitizeDF fb df) = sanitizeDF fb df := by
  have hcolslen : (df.columns.map pyStrip).length = df.columns.length :=
    List.length_map _ _
  have hcols2 : (df.columns.map pyStrip).map pyStrip = df.columns.map pyStrip := by
    rw [List.map_map]
    exact List.map_congr_left (fun c _ => pyStrip_idem c)
  show sanitizeDF fb
      { columns := df.columns.map pyStrip,
        rows := (df.rows.filter (fun r => !r.2.all Value.isNA)).map (fun r =>
          (r.1, ((df.columns.map pyStrip).zip r.2).map
            (fun p => fillCell fb p.1 p.2))) }
    = _
  unfold sanitizeDF
  simp only [hcols2]
  have hfilter :
      ((df.rows.filter (fun r => !r.2.all Value.isNA)).map (fun r =>
          (r.1, ((df.columns.map pyStrip).zip r.2).map
            (fun p => fillCell fb p.1 p.2)))).filter
        (fun r => !r.2.all Value.isNA)
      = (df.rows.filter (fun r => !r.2.all Value.isNA)).map (fun r =>
          (r.1, ((df.columns.map pyStrip).zip r.2).map
            (fun p => fillCell fb p.1 p.2))) := by
    apply List.filter_eq_self.mpr
    intro r' hr'
    obtain ⟨r, hr, hr'eq⟩ := List.mem_map.mp hr'
    obtain ⟨hrmem, hrkeep⟩ := List.mem_filter.mp hr
    subst hr'eq
    simp only [Bool.not_eq_true'] at hrkeep ⊢
    exact fill_row_keeps_some_value fb _ _
      (by rw [hwf r hrmem, hcolslen]) (by simpa using hrkeep)
  rw [hfilter]
  congr 1
  rw [List.map_map]
  apply List.map_congr_left
  intro r _
  simp only [Function.comp_apply]
  exact congrArg (Prod.mk r.1) (fill_row_idem fb _ r.2)

/-- Witness for C5 at a concrete frame (one all-missing row to drop, one
column name to trim, one missing cell to fill). -/
theorem sanitize_idempotent_witness :
    DataFrame.WF ⟨[" a ", "b"], [(Value.int 0, [Value.na, Value.str "x"]),
      (Value.int 1, [Value.na, Value.na])]⟩ ∧
    sanitizeDF (fun _ => true)
        (sanitizeDF (fun _ => true)
          ⟨[" a ", "b"], [(Value.int 0, [Value.na, Value.str "x"]),
            (Value.int 1, [Value.na, Value.na])]⟩)
      = sanitizeDF (fun _ => true)
          ⟨[" a ", "b"], [(Value.int 0, [Value.na, Value.str "x"]),
            (Value.int 1, [Value.na, Value.na])]⟩ :=
  ⟨by unfold DataFrame.WF; decide,
   sanitize_idempotent (fun _ => true) _ (by unfold DataFrame.WF; decide)⟩

/-! ## C3: legacy `label` normalization -/

/-- C3 counterexample.  The claim says `{"label": {"metadata_file": "x"}}`
fails with the unsupported-legacy-feature error; in the code the
`metadata_file` check is only reached after a label column was resolved, so
this input raises the `RuntimeError` of the failed resolution instead. -/
theorem legacy_metadata_file_counterexample :
    make_backward_compatible [("label", .dict [("metadata_file", "x")])]
      ≠ .error .metadataFileUnsupported := by decide

/-- C3 amended.  `{"label": {"gold_label": "sentiment"}}` normalizes to
`{"label": "sentiment"}` with a deprecation warning; `{"label":
{"metadata_file": "x"}}` fails with the `RuntimeError`-class
label-resolution error (none of `name`/`label`/`gold_label`/`field` is
present); the unsupported-legacy error for `metadata_file` is raised only
when a recognized sub-key also resolves. -/
theorem legacy_label_normalization :
    make_backward_compatible [("label", .dict [("gold_label", "sentiment")])]
        = .ok ([("label", .str "sentiment")], [.deprecatedLabelDict]) ∧
    make_backward_compatible [("label", .dict [("metadata_file", "x")])]
        = .error .labelResolution ∧
    make_backward_compatible
        [("label", .dict [("gold_label", "s"), ("metadata_file", "x")])]
        = .error .metadataFileUnsupported := by decide

/-! ## C8: format key inference, `splitext` lemmas -/

theorem lastIdxOf_getElem? (c : Char) (l : List Char) (i : Nat)
    (h : lastIdxOf c l = some i) : l[i]? = some c := by
  induction l generalizing i with
  | nil => simp [lastIdxOf] at h
  | cons a rest ih =>
    unfold lastIdxOf at h
    cases hr : lastIdxOf c rest with
    | some j =>
      rw [hr] at h
      injection h with h
      subst h
      simpa using ih j hr
    | none =>
      rw [hr] at h
      by_cases ha : a = c
      · simp [ha] at h
        subst h
        simp [ha]
      · simp [ha] at h

/-- `splitext` either finds no extension, or splits at the last dot. -/
theorem splitext_eq (p : List Char) :
    splitext p = (p, []) ∨
      ∃ i, lastIdxOf '.' p = some i ∧ splitext p = (p.take i, p.drop i) := by
  unfold splitext
  cases hd : lastIdxOf '.' p with
  | none =>
    left
    cases hs : lastIdxOf '/' p with
    | none => simp
    | some k =>
      have : ¬ ((k : Int) < -1) := by omega
      simp [this]
  | some i =>
    by_cases hcond : (match lastIdxOf '/' p with
        | some k => (k : Int) | none => -1) < (i : Int)
    · by_cases hstem : ((p.drop ((match lastIdxOf '/' p with
          | some k => (k : Int) | none => -1) + 1).toNat).take
          (((i : Int)) - (match lastIdxOf '/' p with
          | some k => (k : Int) | none => -1) - 1).toNat).any
          (fun ch => ch ≠ '.')
      · right
        refine ⟨i, rfl, ?_⟩
        simp only [hcond, if_true, hstem, if_true]
        simp
      · left
        simp only [hcond, if_true]
        rw [if_neg (by simpa using hstem)]
    · left
      rw [if_neg hcond]

/-- C8 counterexample.  For the extensionless path `"dir/file"` the code's
inferred format key is the whole path, while the claim's full-basename
reading (`specFormatKey`) yields `"file"`. -/
theorem inferred_format_key_not_basename :
    inferredFormatKey "dir/file" = "dir/file" ∧
    specFormatKey "dir/file" = "file" ∧
    inferredFormatKey "dir/file" ≠ specFormatKey "dir/file" := by decide

/-- C8 amended.  For a source path without explicit format: if the path has
an extension, the inferred key is the extension without its leading dot (the
extension being a `'.'`-initial suffix of the path); otherwise the inferred
key is the entire path string as given — which is the basename only when the
path has no directory part. -/
theorem inferred_format_key_extension_or_full_path (src : String) :
    ((splitext src.toList).2 ≠ [] →
        (splitext src.toList).1 ++ (splitext src.toList).2 = src.toList ∧
        (splitext src.toList).2.head? = some '.' ∧
        inferredFormatKey src = String.mk ((splitext src.toList).2.drop 1)) ∧
    ((splitext src.toList).2 = [] → inferredFormatKey src = src) := by
  constructor
  · intro hne
    rcases splitext_eq src.toList with h | ⟨i, hi, h⟩
    · rw [h] at hne; simp at hne
    · have hget : src.toList[i]? = some '.' := lastIdxOf_getElem? _ _ _ hi
      refine ⟨?_, ?_, ?_⟩
      · rw [h]; exact List.take_append_drop i src.toList
      · rw [h]
        simpa using hget
      · unfold inferredFormatKey
        rw [h]
        have hlt : i < src.toList.length := by
          by_contra hge
          rw [List.getElem?_eq_none (by omega)] at hget
          exact Option.noConfusion hget
        have hfalse : (List.drop i src.toList).isEmpty = false := by
          cases hdrop : List.drop i src.toList with
          | nil =>
            have := List.drop_eq_nil_iff.mp hdrop
            omega
          | cons a t => rfl
        simp [hfalse]
        intro hle
        have hlen : src.length = src.toList.length := rfl
        omega
  · intro he
    rcases splitext_eq src.toList with h | ⟨i, hi, h⟩
    · unfold inferredFormatKey
      rw [h]
      simp
    · rw [h] at he
      simp only at he
      have hget : src.toList[i]? = some '.' := lastIdxOf_getElem? _ _ _ hi
      have hlt : i < src.toList.length := by
        by_contra hge
        rw [List.getElem?_eq_none (by omega)] at hget
        exact Option.noConfusion hget
      have := List.drop_eq_nil_iff.mp he
      omega

/-- Witness for C8 at `"data/train.csv"`. -/
theorem inferred_format_key_witness :
    (splitext "data/train.csv".toList).2 ≠ [] ∧
    ((splitext "data/train.csv".toList).1 ++ (splitext "data/train.csv".toList).2
        = "data/train.csv".toList ∧
      (splitext "data/train.csv".toList).2.head? = some '.' ∧
      inferredFormatKey "data/train.csv"
        = String.mk ((splitext "data/train.csv".toList).2.drop 1)) :=
  ⟨by decide,
   (inferred_format_key_extension_or_full_path "data/train.csv").1 (by decide)⟩

/-! ## C2: homogeneous and heterogeneous source lists -/

theorem dedup_of_all_eq {α : Type} [DecidableEq α] (k : α) :
    ∀ (l : List α), l ≠ [] → (∀ x ∈ l, x = k) → l.dedup = [k] := by
  intro l
  induction l with
  | nil => intro h; exact absurd rfl h
  | cons a t ih =>
    intro _ hall
    have ha : a = k := hall a (by simp)
    cases t with
    | nil => simp [ha]
    | cons b u =>
      have hmem : a ∈ b :: u := by
        rw [ha, hall b (by simp)]
        simp
      rw [List.dedup_cons_of_mem hmem]
      exact ih (by simp) (fun x hx => hall x (by simp [hx]))

theorem dedup_ne_singleton_of_two {α : Type} [DecidableEq α] (l : List α)
    (a b : α) (ha : a ∈ l) (hb : b ∈ l) (hne : a ≠ b) :
    ∀ k, l.dedup ≠ [k] := by
  intro k hk
  have ha' : a ∈ l.dedup := List.mem_dedup.mpr ha
  have hb' : b ∈ l.dedup := List.mem_dedup.mpr hb
  rw [hk] at ha' hb'
  simp at ha' hb'
  exact hne (ha'.trans hb'.symm)

theorem inferredFormatKey_def (src : String) :
    inferredFormatKey src
      = if (splitext src.toList).2.isEmpty then String.mk (splitext src.toList).1
        else String.mk ((splitext src.toList).2.drop 1) := rfl

theorem formatFromSource_list_def (paths : List String) :
    formatFromSource (.list paths)
      = match (paths.map inferredFormatKey).dedup with
        | [k] => Except.ok k
        | other => Except.error (.heterogeneousSource other) := rfl

/-- C2.  For a list of paths with no explicit format: when every path has
the same (nonempty) extension, format resolution returns that extension
without its dot; when two paths infer distinct format keys, construction
fails with the heterogeneous-source error. -/
theorem format_resolution_homogeneous_or_fails :
    (∀ (paths : List String) (ext : List Char), paths ≠ [] →
        (∀ p ∈ paths, (splitext p.toList).2 = ext) → ext ≠ [] →
        formatFromSource (.list paths) = .ok (String.mk (ext.drop 1))) ∧
    (∀ (paths : List String) (p q : String), p ∈ paths → q ∈ paths →
        inferredFormatKey p ≠ inferredFormatKey q →
        ∃ fs, dsInit (some (.list paths)) none
          = .error (.heterogeneousSource fs)) := by
  constructor
  · intro paths ext hne hall hext
    have hextf : ext.isEmpty = false := by
      cases ext with
      | nil => exact absurd rfl hext
      | cons a t => rfl
    have hkey : ∀ p ∈ paths, inferredFormatKey p = String.mk (ext.drop 1) := by
      intro p hp
      rw [inferredFormatKey_def, hall p hp, hextf]
      simp
    have hform : ∀ x ∈ paths.map inferredFormatKey,
        x = String.mk (ext.drop 1) := by
      intro x hx
      obtain ⟨p, hp, hpx⟩ := List.mem_map.mp hx
      rw [← hpx]; exact hkey p hp
    have hmapne : paths.map inferredFormatKey ≠ [] := by
      simpa using hne
    have hded := dedup_of_all_eq (String.mk (ext.drop 1)) _ hmapne hform
    rw [formatFromSource_list_def, hded]
  · intro paths p q hp hq hne
    have hpk : inferredFormatKey p ∈ paths.map inferredFormatKey :=
      List.mem_map_of_mem _ hp
    have hqk : inferredFormatKey q ∈ paths.map inferredFormatKey :=
      List.mem_map_of_mem _ hq
    have hded := dedup_ne_singleton_of_two _ _ _ hpk hqk hne
    have hform : formatFromSource (.list paths)
        = .error (.heterogeneousSource (paths.map inferredFormatKey).dedup) := by
      rw [formatFromSource_list_def]
      cases hd : (paths.map inferredFormatKey).dedup with
      | nil => rfl
      | cons a t =>
        cases t with
        | nil => exact absurd hd (hded a)
        | cons b u => rfl
    refine ⟨(paths.map inferredFormatKey).dedup, ?_⟩
    have htruthy : optSourceTruthy (some (.list paths)) = true := by
      cases paths with
      | nil => simp at hp
      | cons a t => rfl
    unfold dsInit
    rw [show optFormatFalsy none = true from rfl, htruthy]
    simp only [Bool.and_self, if_true, hform, Except.map]

/-- Witness for C2: two csv paths resolve to the `csv` key; a csv/json mix
fails construction with the heterogeneous-source error. -/
theorem format_resolution_witness :
    formatFromSource (.list ["a.csv", "b.csv"])
        = .ok (String.mk (".csv".toList.drop 1)) ∧
    ∃ fs, dsInit (some (.list ["a.csv", "b.json"])) none
        = .error (.heterogeneousSource fs) :=
  ⟨format_resolution_homogeneous_or_fails.1 ["a.csv", "b.csv"] ".csv".toList
      (by decide) (by decide) (by decide),
   format_resolution_homogeneous_or_fails.2 ["a.csv", "b.json"] "a.csv" "b.json"
      (by decide) (by decide) (by decide)⟩

/-! ## C10: null format key versus unsupported format key -/

/-- C10.  Constructing with no source and no format fails with the
attribute error raised while normalizing the `None` format key — never with
the unsupported-format error; that error, which lists the registry keys, is
produced exactly for a non-null key whose lower-cased, trimmed form is
absent from the registry. -/
theorem init_null_format_vs_unsupported :
    dsInit none none = .error .noneFormat ∧
    (∀ f ks, dsInit none none ≠ .error (.unsupportedFormat f ks)) ∧
    (∀ f : String, cleanFormat f ∉ SUPPORTED_FORMAT_KEYS →
        find_reader (some f)
          = .error (.unsupportedFormat f SUPPORTED_FORMAT_KEYS)) ∧
    (∀ (fmt : Option String) (f : String) (ks : List String),
        find_reader fmt = .error (.unsupportedFormat f ks) →
        fmt = some f ∧ ks = SUPPORTED_FORMAT_KEYS ∧
          cleanFormat f ∉ SUPPORTED_FORMAT_KEYS) := by
  refine ⟨by decide, ?_, ?_, ?_⟩
  · intro f ks h
    rw [show dsInit none none = .error .noneFormat from by decide] at h
    simp at h
  · intro f hmiss
    unfold find_reader
    simp [hmiss]
  · intro fmt f ks h
    cases fmt with
    | none =>
      unfold find_reader at h
      simp at h
    | some g =>
      unfold find_reader at h
      have h' : (if SUPPORTED_FORMAT_KEYS.contains (cleanFormat g) = true
            then Except.ok (cleanFormat g)
            else Except.error (DsError.unsupportedFormat g SUPPORTED_FORMAT_KEYS))
          = Except.error (DsError.unsupportedFormat f ks) := h
      by_cases hc : SUPPORTED_FORMAT_KEYS.contains (cleanFormat g) = true
      · rw [if_pos hc] at h'
        exact Except.noConfusion h'
      · rw [if_neg hc] at h'
        injection h' with h2
        rw [DsError.unsupportedFormat.injEq] at h2
        obtain ⟨hgf, hks⟩ := h2
        subst hgf
        exact ⟨rfl, hks.symm, by simpa using hc⟩

/-- Witness for C10 at the unsupported key `"yamlx"`. -/
theorem init_null_format_witness :
    cleanFormat "yamlx" ∉ SUPPORTED_FORMAT_KEYS ∧
    find_reader (some "yamlx")
      = .error (.unsupportedFormat "yamlx" SUPPORTED_FORMAT_KEYS) :=
  ⟨by decide, init_null_format_vs_unsupported.2.2.1 "yamlx" (by decide)⟩

/-! ## Python-dict lemmas -/

theorem pyGet?_insert_self {α : Type} (d : List (String × α)) (k : String)
    (v : α) : pyGet? (pyDictInsert d k v) k = some v := by
  induction d with
  | nil => simp [pyDictInsert, pyGet?]
  | cons p rest ih =>
    by_cases hp : p.1 = k
    · simp [pyDictInsert, hp, pyGet?]
    · simp [pyDictInsert, hp, pyGet?, ih]

theorem pyGet?_cons {α : Type} (p : String × α) (rest : List (String × α))
    (k : String) :
    pyGet? (p :: rest) k = if p.1 = k then some p.2 else pyGet? rest k := rfl

theorem mem_keys_pyDictInsert {α : Type} (d : List (String × α)) (k : String)
    (v : α) (x : String) (hx : x ∈ (pyDictInsert d k v).map Prod.fst) :
    x ∈ d.map Prod.fst ∨ x = k := by
  induction d with
  | nil =>
    right
    rw [pyDictInsert, List.map_cons, List.mem_cons] at hx
    rcases hx with hx | hx
    · exact hx
    · simp at hx
  | cons p rest ih =>
    by_cases hp : p.1 = k
    · rw [pyDictInsert, if_pos hp, List.map_cons, List.mem_cons] at hx
      rcases hx with hx | hx
      · right; exact hx
      · left; rw [List.map_cons, List.mem_cons]; right; exact hx
    · rw [pyDictInsert, if_neg hp, List.map_cons, List.mem_cons] at hx
      rcases hx with hx | hx
      · left; rw [List.map_cons, List.mem_cons]; left; exact hx
      · rcases ih hx with h | h
        · left; rw [List.map_cons, List.mem_cons]; right; exact h
        · right; exact h

theorem mem_keys_pyDict {α : Type} (l : List (String × α)) (x : String)
    (hx : x ∈ (pyDict l).map Prod.fst) : x ∈ l.map Prod.fst := by
  suffices h : ∀ (acc : List (String × α)),
      x ∈ (l.foldl (fun d p => pyDictInsert d p.1 p.2) acc).map Prod.fst →
      x ∈ acc.map Prod.fst ∨ x ∈ l.map Prod.fst by
    rcases h [] hx with h' | h'
    · simp at h'
    · exact h'
  clear hx
  induction l with
  | nil => intro acc h; left; exact h
  | cons p t ih =>
    intro acc h
    rw [List.foldl_cons] at h
    rcases ih (pyDictInsert acc p.1 p.2) h with h' | h'
    · rcases mem_keys_pyDictInsert acc p.1 p.2 x h' with h'' | h''
      · left; exact h''
      · right; simp [h'']
    · right; simp [h']

theorem pyGet?_eq_none {α : Type} (d : List (String × α)) (k : String)
    (hk : k ∉ d.map Prod.fst) : pyGet? d k = none := by
  induction d with
  | nil => rfl
  | cons p rest ih =>
    rw [List.map_cons, List.mem_cons] at hk
    push_neg at hk
    rw [pyGet?_cons, if_neg (fun h => hk.1 h.symm)]
    exact ih hk.2

theorem pyDictInsert_of_not_mem {α : Type} (d : List (String × α)) (k : String)
    (v : α) (hk : k ∉ d.map Prod.fst) : pyDictInsert d k v = d ++ [(k, v)] := by
  induction d with
  | nil => rfl
  | cons p rest ih =>
    rw [List.map_cons, List.mem_cons] at hk
    push_neg at hk
    rw [pyDictInsert, if_neg (fun h => hk.1 h.symm)]
    rw [ih hk.2]
    rfl

theorem pyDict_eq_self {α : Type} (l : List (String × α))
    (h : (l.map Prod.fst).Nodup) : pyDict l = l := by
  suffices haux : ∀ (acc : List (String × α)),
      (acc.map Prod.fst ++ l.map Prod.fst).Nodup →
      l.foldl (fun d p => pyDictInsert d p.1 p.2) acc = acc ++ l by
    have := haux [] (by simpa using h)
    simpa using this
  clear h
  induction l with
  | nil => intro acc _; simp
  | cons p t ih =>
    intro acc hnd
    rw [List.foldl_cons]
    have hp : p.1 ∉ acc.map Prod.fst := by
      intro hmem
      have := List.disjoint_of_nodup_append hnd
      exact this hmem (by simp)
    rw [pyDictInsert_of_not_mem acc p.1 p.2 hp]
    have hnd' : ((acc ++ [(p.1, p.2)]).map Prod.fst ++ t.map Prod.fst).Nodup := by
      simp only [List.map_append, List.map_cons, List.map_nil] at hnd ⊢
      simpa [List.append_assoc] using hnd
    have := ih (acc ++ [(p.1, p.2)]) hnd'
    simpa [List.append_assoc] using this

theorem map_fst_zip_eq_take {α β : Type} :
    ∀ (l : List α) (l' : List β), (l.zip l').map Prod.fst = l.take l'.length := by
  intro l
  induction l with
  | nil => intro l'; simp
  | cons a t ih =>
    intro l'
    cases l' with
    | nil => simp
    | cons b u => simp [ih u]

theorem mem_keys_zip {α β : Type} (l : List α) (l' : List β) (x : α)
    (hx : x ∈ (l.zip l').map Prod.fst) : x ∈ l := by
  rw [map_fst_zip_eq_take] at hx
  exact List.mem_of_mem_take hx

/-! ## C7: provenance precedence in `_row2dict` -/

/-- C7.  The provenance field of an emitted row record is: the row's
`resource` column value when such a column exists, else the row's `path`
column value when one exists, else the stringified caller default; a
provenance value already present in the source data is never overwritten. -/
theorem row2dict_provenance_precedence (idx : Value) (cells : List Value)
    (columns : List String) (dflt : Option String)
    (hnd : (columns.map replaceDots).Nodup)
    (hid : ID ∉ columns.map replaceDots) :
    pyGet? (row2dict (idx, cells) columns dflt) RESOURCE =
      some ((pyGet? ((columns.map replaceDots).zip cells) RESOURCE).getD
        ((pyGet? ((columns.map replaceDots).zip cells) PATH_COLUMN_NAME).getD
          (Value.str (pyStr dflt)))) := by
  have hzipnd : (((columns.map replaceDots).zip cells).map Prod.fst).Nodup := by
    rw [map_fst_zip_eq_take]
    exact hnd.sublist (List.take_sublist _ _)
  have hidzip : ID ∉ ((columns.map replaceDots).zip cells).map Prod.fst :=
    fun hmem => hid (mem_keys_zip _ _ _ hmem)
  have hdata : pyDict ((ID, idx) :: (columns.map replaceDots).zip cells)
      = (ID, idx) :: (columns.map replaceDots).zip cells := by
    apply pyDict_eq_self
    simp only [List.map_cons, List.nodup_cons]
    exact ⟨hidzip, hzipnd⟩
  show pyGet? (pyDictInsert (pyDict ((ID, idx) ::
      (columns.map replaceDots).zip cells)) RESOURCE _) RESOURCE = _
  rw [pyGet?_insert_self, hdata]
  have hres : pyGet? ((ID, idx) :: (columns.map replaceDots).zip cells) RESOURCE
      = pyGet? ((columns.map replaceDots).zip cells) RESOURCE := by
    rw [pyGet?_cons, if_neg (show ¬(ID = RESOURCE) from by decide)]
  have hpath : pyGet? ((ID, idx) :: (columns.map replaceDots).zip cells)
        PATH_COLUMN_NAME
      = pyGet? ((columns.map replaceDots).zip cells) PATH_COLUMN_NAME := by
    rw [pyGet?_cons, if_neg (show ¬(ID = PATH_COLUMN_NAME) from by decide)]
  rw [show ∀ d : List (String × Value), pyDictGet d RESOURCE
        (pyDictGet d PATH_COLUMN_NAME (Value.str (pyStr dflt)))
      = (pyGet? d RESOURCE).getD ((pyGet? d PATH_COLUMN_NAME).getD
        (Value.str (pyStr dflt))) from fun d => rfl]
  rw [hres, hpath]

/-- Witness for C7: a frame with a `path` column and no resource column; the
record's provenance field is the path cell. -/
theorem row2dict_provenance_witness :
    (["path"].map replaceDots).Nodup ∧ ID ∉ ["path"].map replaceDots ∧
    pyGet? (row2dict (Value.int 0, [Value.str "f.csv"]) ["path"] none) RESOURCE
      = some ((pyGet? ((["path"].map replaceDots).zip [Value.str "f.csv"])
          RESOURCE).getD
        ((pyGet? ((["path"].map replaceDots).zip [Value.str "f.csv"])
          PATH_COLUMN_NAME).getD (Value.str (pyStr none)))) :=
  ⟨by decide, by decide,
   row2dict_provenance_precedence (Value.int 0) [Value.str "f.csv"] ["path"]
     none (by decide) (by decide)⟩

/-! ## C9: the literal `"None"` provenance fallback -/

theorem row2dict_resource_absent (idx : Value) (cells : List Value)
    (columns : List String) (dflt : Option String)
    (hres : RESOURCE ∉ columns.map replaceDots)
    (hpath : PATH_COLUMN_NAME ∉ columns.map replaceDots) :
    pyGet? (row2dict (idx, cells) columns dflt) RESOURCE
      = some (Value.str (pyStr dflt)) := by
  show pyGet? (pyDictInsert (pyDict ((ID, idx) ::
      (columns.map replaceDots).zip cells)) RESOURCE _) RESOURCE = _
  rw [pyGet?_insert_self]
  have habsent : ∀ k : String, k ≠ ID → k ∉ columns.map replaceDots →
      pyGet? (pyDict ((ID, idx) :: (columns.map replaceDots).zip cells)) k
        = none := by
    intro k hkid hkcols
    apply pyGet?_eq_none
    intro hmem
    have := mem_keys_pyDict _ _ hmem
    rw [List.map_cons, List.mem_cons] at this
    rcases this with h | h
    · exact hkid h
    · exact hkcols (mem_keys_zip _ _ _ h)
  rw [show ∀ d : List (String × Value), pyDictGet d RESOURCE
        (pyDictGet d PATH_COLUMN_NAME (Value.str (pyStr dflt)))
      = (pyGet? d RESOURCE).getD ((pyGet? d PATH_COLUMN_NAME).getD
        (Value.str (pyStr dflt))) from fun d => rfl]
  rw [habsent RESOURCE (by decide) hres,
    habsent PATH_COLUMN_NAME (by decide) hpath]
  rfl

/-- C9.  A record emitted by `to_bag` (or `to_mapped_bag`) from a frame with
neither a resource column nor a `path` column carries the literal
four-character string `"None"` as its provenance value: the bag conversions
pass no default path and the fallback stringifies the absent default. -/
theorem bag_provenance_default_none_string :
    (∀ (df : DataFrame),
        RESOURCE ∉ df.columns.map (fun c => replaceDots (pyStrip c)) →
        PATH_COLUMN_NAME ∉ df.columns.map (fun c => replaceDots (pyStrip c)) →
        ∀ rcd ∈ to_bag df, pyGet? rcd RESOURCE = some (Value.str "None")) ∧
    (∀ (ds : DataSourceState) (bag : List (List (String × Value))),
        (to_mapped_bag ds).1 = .ok bag →
        RESOURCE ∉ ds.mapping.map (fun e => replaceDots (pyStrip e.1)) →
        PATH_COLUMN_NAME ∉ ds.mapping.map (fun e => replaceDots (pyStrip e.1)) →
        ∀ rcd ∈ bag, pyGet? rcd RESOURCE = some (Value.str "None")) := by
  have hone : ∀ (cols : List String) (r : Value × List Value),
      RESOURCE ∉ cols.map (fun c => replaceDots (pyStrip c)) →
      PATH_COLUMN_NAME ∉ cols.map (fun c => replaceDots (pyStrip c)) →
      pyGet? (row2dict r (cols.map pyStrip) none) RESOURCE
        = some (Value.str "None") := by
    intro cols r hres hpath
    have hcomp : (cols.map pyStrip).map replaceDots
        = cols.map (fun c => replaceDots (pyStrip c)) := by
      rw [List.map_map]; rfl
    have := row2dict_resource_absent r.1 r.2 (cols.map pyStrip) none
      (by rw [hcomp]; exact hres) (by rw [hcomp]; exact hpath)
    simpa [pyStr] using this
  constructor
  · intro df hres hpath rcd hrcd
    obtain ⟨r, hr, hreq⟩ := List.mem_map.mp hrcd
    rw [← hreq]
    exact hone df.columns r hres hpath
  · intro ds bag hok hres hpath rcd hrcd
    unfold to_mapped_bag at hok
    cases hmdf : to_mapped_dataframe ds with
    | mk res s =>
      rw [hmdf] at hok
      cases res with
      | error e => simp at hok
      | ok mdf =>
        simp at hok
        have hcols : mdf.columns = ds.mapping.map Prod.fst := by
          unfold to_mapped_dataframe at hmdf
          by_cases hemp : ds.mapping.isEmpty
          · rw [if_pos hemp] at hmdf
            exact absurd (congrArg Prod.fst hmdf) (by simp)
          · rw [if_neg hemp] at hmdf
            have hfst := congrArg Prod.fst hmdf
            simp only at hfst
            cases hfold : ds.mapping.foldl (mapStep ds.df) (.ok ds.df) with
            | error e => rw [hfold] at hfst; simp [Except.map] at hfst
            | ok F =>
              rw [hfold] at hfst
              simp [Except.map] at hfst
              rw [← hfst]
              rfl
        rw [← hok] at hrcd
        obtain ⟨r, hr, hreq⟩ := List.mem_map.mp hrcd
        rw [← hreq]
        apply hone mdf.columns r
        · rw [hcols, List.map_map]; exact hres
        · rw [hcols, List.map_map]; exact hpath

/-- Witness for C9: a one-column frame and a one-entry mapping, neither
naming a resource or path column. -/
theorem bag_provenance_witness :
    (∀ rcd ∈ to_bag ⟨["a"], [(Value.int 0, [Value.str "v"])]⟩,
      pyGet? rcd RESOURCE = some (Value.str "None")) ∧
    ∃ bag, (to_mapped_bag ⟨⟨["a"], [(Value.int 0, [Value.str "v"])]⟩,
        [("text", .single "a")]⟩).1 = .ok bag ∧
      ∀ rcd ∈ bag, pyGet? rcd RESOURCE = some (Value.str "None") := by
  constructor
  · exact bag_provenance_default_none_string.1
      ⟨["a"], [(Value.int 0, [Value.str "v"])]⟩ (by decide) (by decide)
  · refine ⟨_, rfl, ?_⟩
    exact bag_provenance_default_none_string.2
      ⟨⟨["a"], [(Value.int 0, [Value.str "v"])]⟩, [("text", .single "a")]⟩
      _ rfl (by decide) (by decide)

/-! ## C4: unknown columns fail the mapped dataframe -/

theorem foldl_mapStep_error (df0 : DataFrame) (err : DsError) :
    ∀ l : List (String × FeatureSpec),
      l.foldl (mapStep df0) (.error err) = .error err := by
  intro l
  induction l with
  | nil => rfl
  | cons e t ih => rw [List.foldl_cons]; exact ih

theorem missing_filter_nil_iff (df0 : DataFrame) (feats : List String) :
    feats.filter (fun c => !df0.columns.contains c) = []
      ↔ ∀ c ∈ feats, c ∈ df0.columns := by
  rw [List.filter_eq_nil_iff]
  constructor
  · intro h c hc
    have := h c hc
    simpa using this
  · intro h c hc
    simpa using h c hc

theorem mapStep_ok_def (df0 : DataFrame) (mdf : DataFrame)
    (e : String × FeatureSpec) :
    mapStep df0 (.ok mdf) e
      = if (e.2.toList.filter (fun c => !df0.columns.contains c)).isEmpty
        then Except.ok (dfSetColumn mdf e.1 (newColCells df0 e.2.toList))
        else Except.error (.unknownColumn
          (e.2.toList.filter (fun c => !df0.columns.contains c))
          e.2.toList df0.columns) := rfl

theorem foldl_mapStep_fails (df0 : DataFrame) :
    ∀ (l : List (String × FeatureSpec)) (acc : DataFrame)
      (e : String × FeatureSpec), e ∈ l →
      ∀ c ∈ e.2.toList, c ∉ df0.columns →
      ∃ missing requested,
        l.foldl (mapStep df0) (.ok acc)
            = .error (.unknownColumn missing requested df0.columns) ∧
          missing ≠ [] ∧
          (∀ m ∈ missing, m ∈ requested ∧ m ∉ df0.columns) ∧
          ∃ e' ∈ l, e'.2.toList = requested := by
  intro l
  induction l with
  | nil => intro acc e he; exact absurd he (by simp)
  | cons e0 t ih =>
    intro acc e he c hc hnc
    rw [List.foldl_cons]
    by_cases hm : (e0.2.toList.filter (fun x => !df0.columns.contains x)) = []
    · have hstep : mapStep df0 (.ok acc) e0
          = .ok (dfSetColumn acc e0.1 (newColCells df0 e0.2.toList)) := by
        rw [mapStep_ok_def, hm]
        rfl
      rw [hstep]
      have het : e ∈ t := by
        rcases List.mem_cons.mp he with h | h
        · exfalso
          subst h
          have : c ∈ df0.columns :=
            (missing_filter_nil_iff df0 _).mp hm c hc
          exact hnc this
        · exact h
      obtain ⟨missing, requested, hfold, hne, hprops, e', he', heq⟩ :=
        ih _ e het c hc hnc
      exact ⟨missing, requested, hfold, hne, hprops, e',
        List.mem_cons_of_mem _ he', heq⟩
    · have hstep : mapStep df0 (.ok acc) e0
          = .error (.unknownColumn
              (e0.2.toList.filter (fun x => !df0.columns.contains x))
              e0.2.toList df0.columns) := by
        rw [mapStep_ok_def]
        cases hf : e0.2.toList.filter (fun x => !df0.columns.contains x) with
        | nil => exact absurd hf hm
        | cons a u => rfl
      rw [hstep, foldl_mapStep_error]
      refine ⟨_, e0.2.toList, rfl, hm, ?_, e0, by simp, rfl⟩
      intro m hmm
      have := List.mem_filter.mp hmm
      refine ⟨this.1, ?_⟩
      have := this.2
      simpa using this

/-- C4.  A mapping that references a column absent from the sanitized frame
makes `to_mapped_dataframe` fail with the unknown-column error, which names
the missing columns, the requested features and the available columns. -/
theorem mapped_dataframe_unknown_column_error (ds : DataSourceState)
    (e : String × FeatureSpec) (c : String) (he : e ∈ ds.mapping)
    (hc : c ∈ e.2.toList) (hnc : c ∉ ds.df.columns) :
    ∃ missing requested,
      (to_mapped_dataframe ds).1
          = .error (.unknownColumn missing requested ds.df.columns) ∧
        missing ≠ [] ∧
        (∀ m ∈ missing, m ∈ requested ∧ m ∉ ds.df.columns) ∧
        ∃ e' ∈ ds.mapping, e'.2.toList = requested := by
  have hemp : ds.mapping.isEmpty = false := by
    cases hmp : ds.mapping with
    | nil => rw [hmp] at he; exact absurd he (by simp)
    | cons a t => rfl
  obtain ⟨missing, requested, hfold, hne, hprops, hwit⟩ :=
    foldl_mapStep_fails ds.df ds.mapping ds.df e he c hc hnc
  refine ⟨missing, requested, ?_, hne, hprops, hwit⟩
  unfold to_mapped_dataframe
  rw [hemp]
  simp only [Bool.false_eq_true, if_false, hfold, Except.map]

/-- Witness for C4: the mapping requests the absent column `"zz"`. -/
theorem mapped_dataframe_unknown_column_witness :
    ("x", FeatureSpec.many ["a", "zz"])
        ∈ [("x", FeatureSpec.many ["a", "zz"])] ∧
    "zz" ∈ (FeatureSpec.many ["a", "zz"]).toList ∧
    "zz" ∉ ["a"] ∧
    ∃ missing requested,
      (to_mapped_dataframe ⟨⟨["a"], [(Value.int 0, [Value.str "v"])]⟩,
          [("x", FeatureSpec.many ["a", "zz"])]⟩).1
          = .error (.unknownColumn missing requested ["a"]) ∧
        missing ≠ [] ∧
        (∀ m ∈ missing, m ∈ requested ∧ m ∉ ["a"]) ∧
        ∃ e' ∈ [("x", FeatureSpec.many ["a", "zz"])], e'.2.toList = requested :=
  ⟨by decide, by decide, by decide,
   mapped_dataframe_unknown_column_error
     ⟨⟨["a"], [(Value.int 0, [Value.str "v"])]⟩,
       [("x", FeatureSpec.many ["a", "zz"])]⟩
     ("x", FeatureSpec.many ["a", "zz"]) "zz" (by decide) (by decide)
     (by decide)⟩

/-! ## C6: mapped columns and absence of mutation -/

theorem foldl_mapStep_ok (df0 : DataFrame) :
    ∀ (l : List (String × FeatureSpec)) (acc : DataFrame),
      (∀ e ∈ l, ∀ c ∈ e.2.toList, c ∈ df0.columns) →
      l.foldl (mapStep df0) (.ok acc) = .ok (l.foldl (setStep df0) acc) := by
  intro l
  induction l with
  | nil => intro acc _; rfl
  | cons e0 t ih =>
    intro acc hall
    rw [List.foldl_cons, List.foldl_cons]
    have hm : (e0.2.toList.filter (fun c => !df0.columns.contains c)) = [] :=
      (missing_filter_nil_iff df0 _).mpr (hall e0 (by simp))
    have hstep : mapStep df0 (.ok acc) e0 = .ok (setStep df0 acc e0) := by
      rw [mapStep_ok_def, hm]
      rfl
    rw [hstep]
    exact ih _ (fun e he => hall e (List.mem_cons_of_mem _ he))

/-- C6.  With a non-empty mapping whose features all exist, the mapped
dataframe's columns are exactly the mapping's logical field names in
declaration order, and the computation leaves the source's own dataframe
unchanged (the loop writes only into the copied frame). -/
theorem mapped_dataframe_columns_and_no_mutation (ds : DataSourceState)
    (hm : ds.mapping ≠ [])
    (hcols : ∀ e ∈ ds.mapping, ∀ c ∈ e.2.toList, c ∈ ds.df.columns) :
    (∃ mdf, (to_mapped_dataframe ds).1 = .ok mdf ∧
        mdf.columns = ds.mapping.map Prod.fst) ∧
      (to_mapped_dataframe ds).2 = ds := by
  have hemp : ds.mapping.isEmpty = false := by
    cases hmp : ds.mapping with
    | nil => exact absurd hmp hm
    | cons a t => rfl
  constructor
  · refine ⟨dfProject (ds.mapping.foldl (setStep ds.df) ds.df)
        (ds.mapping.map Prod.fst), ?_, rfl⟩
    unfold to_mapped_dataframe
    rw [hemp]
    simp only [Bool.false_eq_true, if_false]
    rw [foldl_mapStep_ok ds.df ds.mapping ds.df hcols]
    rfl
  · unfold to_mapped_dataframe
    by_cases h : ds.mapping.isEmpty = true
    · rw [if_pos h]
    · rw [if_neg h]

/-- Witness for C6 at a two-entry mapping over a two-column frame. -/
theorem mapped_dataframe_columns_witness :
    ([("u", FeatureSpec.single "b"), ("t", FeatureSpec.many ["a", "b"])]
        ≠ []) ∧
    (∃ mdf,
      (to_mapped_dataframe ⟨⟨["a", "b"],
          [(Value.int 0, [Value.str "x", Value.str "y"])]⟩,
          [("u", FeatureSpec.single "b"), ("t", FeatureSpec.many ["a", "b"])]⟩).1
        = .ok mdf ∧ mdf.columns = ["u", "t"]) ∧
    (to_mapped_dataframe ⟨⟨["a", "b"],
        [(Value.int 0, [Value.str "x", Value.str "y"])]⟩,
        [("u", FeatureSpec.single "b"), ("t", FeatureSpec.many ["a", "b"])]⟩).2
      = ⟨⟨["a", "b"], [(Value.int 0, [Value.str "x", Value.str "y"])]⟩,
        [("u", FeatureSpec.single "b"), ("t", FeatureSpec.many ["a", "b"])]⟩ := by
  have h := mapped_dataframe_columns_and_no_mutation
    ⟨⟨["a", "b"], [(Value.int 0, [Value.str "x", Value.str "y"])]⟩,
      [("u", FeatureSpec.single "b"), ("t", FeatureSpec.many ["a", "b"])]⟩
    (by decide) (by decide)
  exact ⟨by decide, h.1, h.2⟩

/-! ## C1: column-lookup and column-assignment lemmas -/

theorem colIdx?_nil (k : String) : colIdx? [] k = none := rfl

theorem colIdx?_cons (c : String) (t : List String) (k : String) :
    colIdx? (c :: t) k
      = if c = k then some 0 else (colIdx? t k).map (fun i => i + 1) := rfl

theorem colIdx?_lt (cols : List String) (k : String) :
    ∀ i, colIdx? cols k = some i → i < cols.length := by
  induction cols with
  | nil => intro i h; rw [colIdx?_nil] at h; exact Option.noConfusion h
  | cons c t ih =>
    intro i h
    rw [colIdx?_cons] at h
    by_cases hc : c = k
    · rw [if_pos hc] at h
      injection h with h
      simp only [List.length_cons]
      omega
    · rw [if_neg hc] at h
      cases ht : colIdx? t k with
      | none => rw [ht] at h; exact Option.noConfusion h
      | some m =>
        rw [ht] at h
        simp only [Option.map_some'] at h
        injection h with h
        have := ih m ht
        simp only [List.length_cons]
        omega

theorem colIdx?_getElem? (cols : List String) (k : String) :
    ∀ i, colIdx? cols k = some i → cols[i]? = some k := by
  induction cols with
  | nil => intro i h; rw [colIdx?_nil] at h; exact Option.noConfusion h
  | cons c t ih =>
    intro i h
    rw [colIdx?_cons] at h
    by_cases hc : c = k
    · rw [if_pos hc] at h
      injection h with h
      subst hc
      rw [← h]
      simp
    · rw [if_neg hc] at h
      cases ht : colIdx? t k with
      | none => rw [ht] at h; exact Option.noConfusion h
      | some m =>
        rw [ht] at h
        simp only [Option.map_some'] at h
        injection h with h
        rw [← h]
        simpa using ih m ht

theorem colIdx?_eq_none_iff (cols : List String) (k : String) :
    colIdx? cols k = none ↔ k ∉ cols := by
  induction cols with
  | nil => simp [colIdx?_nil]
  | cons c t ih =>
    rw [colIdx?_cons]
    by_cases hc : c = k
    · rw [if_pos hc]
      simp [hc]
    · rw [if_neg hc]
      cases ht : colIdx? t k with
      | none =>
        simp only [Option.map_none']
        have hnt : k ∉ t := ih.mp ht
        constructor
        · intro _
          rw [List.mem_cons]
          push_neg
          exact ⟨fun hk => hc hk.symm, hnt⟩
        · intro _; trivial
      | some m =>
        simp only [Option.map_some']
        constructor
        · intro h; exact Option.noConfusion h
        · intro h
          exfalso
          have hkt : k ∈ t := by
            by_contra hnt
            rw [ih.mpr hnt] at ht
            exact Option.noConfusion ht
          exact h (List.mem_cons.mpr (Or.inr hkt))

theorem colIdx?_append_left (cols l : List String) (k : String) :
    ∀ i, colIdx? cols k = some i → colIdx? (cols ++ l) k = some i := by
  induction cols with
  | nil => intro i h; rw [colIdx?_nil] at h; exact Option.noConfusion h
  | cons c t ih =>
    intro i h
    rw [colIdx?_cons] at h
    rw [List.cons_append, colIdx?_cons]
    by_cases hc : c = k
    · rw [if_pos hc] at h ⊢; exact h
    · rw [if_neg hc] at h ⊢
      cases ht : colIdx? t k with
      | none => rw [ht] at h; exact Option.noConfusion h
      | some m =>
        rw [ht] at h
        rw [ih m ht]
        exact h

theorem colIdx?_append_singleton_none (cols : List String) (k n : String)
    (h : colIdx? cols k = none) :
    colIdx? (cols ++ [n]) k
      = if n = k then some cols.length else none := by
  induction cols with
  | nil =>
    rw [List.nil_append, colIdx?_cons, colIdx?_nil]
    by_cases hn : n = k
    · rw [if_pos hn, if_pos hn]; rfl
    · rw [if_neg hn, if_neg hn]; rfl
  | cons c t ih =>
    rw [colIdx?_cons] at h
    by_cases hc : c = k
    · rw [if_pos hc] at h; exact Option.noConfusion h
    · rw [if_neg hc] at h
      rw [List.cons_append, colIdx?_cons, if_neg hc]
      cases ht : colIdx? t k with
      | none =>
        rw [ih ht]
        by_cases hn : n = k
        · rw [if_pos hn, if_pos hn]
          simp [List.length_cons]
        · rw [if_neg hn, if_neg hn]
          rfl
      | some m => rw [ht] at h; exact Option.noConfusion h

theorem dfSetColumn_columns_found (df : DataFrame) (n : String)
    (vals : List Value) (i : Nat) (h : colIdx? df.columns n = some i) :
    (dfSetColumn df n vals).columns = df.columns := by
  unfold dfSetColumn
  rw [h]

theorem dfSetColumn_columns_not_found (df : DataFrame) (n : String)
    (vals : List Value) (h : colIdx? df.columns n = none) :
    (dfSetColumn df n vals).columns = df.columns ++ [n] := by
  unfold dfSetColumn
  rw [h]

theorem dfSetColumn_rows_eq_found (df : DataFrame) (n : String)
    (vals : List Value) (i : Nat) (h : colIdx? df.columns n = some i) :
    (dfSetColumn df n vals).rows
      = (df.rows.zip vals).map (fun rv => (rv.1.1, rv.1.2.set i rv.2)) := by
  unfold dfSetColumn
  rw [h]

theorem dfSetColumn_rows_eq_not_found (df : DataFrame) (n : String)
    (vals : List Value) (h : colIdx? df.columns n = none) :
    (dfSetColumn df n vals).rows
      = (df.rows.zip vals).map (fun rv => (rv.1.1, rv.1.2 ++ [rv.2])) := by
  unfold dfSetColumn
  rw [h]

theorem dfSetColumn_rows_length (df : DataFrame) (n : String)
    (vals : List Value) (hv : vals.length = df.rows.length) :
    (dfSetColumn df n vals).rows.length = df.rows.length := by
  cases h : colIdx? df.columns n with
  | some i =>
    rw [dfSetColumn_rows_eq_found df n vals i h, List.length_map,
      List.length_zip, hv, Nat.min_self]
  | none =>
    rw [dfSetColumn_rows_eq_not_found df n vals h, List.length_map,
      List.length_zip, hv, Nat.min_self]

theorem dfSetColumn_row_found (df : DataFrame) (n : String) (vals : List Value)
    (i : Nat) (h : colIdx? df.columns n = some i) (j : Nat)
    (hj : j < df.rows.length) (hv : vals.length = df.rows.length)
    (hj2 : j < (dfSetColumn df n vals).rows.length) :
    (dfSetColumn df n vals).rows[j]
      = ((df.rows[j]).1, (df.rows[j]).2.set i vals[j]) := by
  have hjz : j < (df.rows.zip vals).length := by
    rw [List.length_zip, hv, Nat.min_self]; exact hj
  have hjm : j < ((df.rows.zip vals).map
      (fun rv => (rv.1.1, rv.1.2.set i rv.2))).length := by
    rw [List.length_map]; exact hjz
  rw [show (dfSetColumn df n vals).rows[j]
      = ((df.rows.zip vals).map (fun rv => (rv.1.1, rv.1.2.set i rv.2)))[j]
    from by congr 1; exact dfSetColumn_rows_eq_found df n vals i h]
  rw [List.getElem_map, List.getElem_zip]

theorem dfSetColumn_row_not_found (df : DataFrame) (n : String)
    (vals : List Value) (h : colIdx? df.columns n = none) (j : Nat)
    (hj : j < df.rows.length) (hv : vals.length = df.rows.length)
    (hj2 : j < (dfSetColumn df n vals).rows.length) :
    (dfSetColumn df n vals).rows[j]
      = ((df.rows[j]).1, (df.rows[j]).2 ++ [vals[j]]) := by
  have hjz : j < (df.rows.zip vals).length := by
    rw [List.length_zip, hv, Nat.min_self]; exact hj
  have hjm : j < ((df.rows.zip vals).map
      (fun rv => (rv.1.1, rv.1.2 ++ [rv.2]))).length := by
    rw [List.length_map]; exact hjz
  rw [show (dfSetColumn df n vals).rows[j]
      = ((df.rows.zip vals).map (fun rv => (rv.1.1, rv.1.2 ++ [rv.2])))[j]
    from by congr 1; exact dfSetColumn_rows_eq_not_found df n vals h]
  rw [List.getElem_map, List.getElem_zip]

theorem rowCell_found (cols : List String) (cells : List Value) (k : String)
    (i : Nat) (h : colIdx? cols k = some i) :
    rowCell cols cells k = cells.getD i Value.na := by
  unfold rowCell
  rw [h]

theorem rowCell_not_found (cols : List String) (cells : List Value)
    (k : String) (h : colIdx? cols k = none) :
    rowCell cols cells k = Value.na := by
  unfold rowCell
  rw [h]

theorem read_set_self (df : DataFrame) (n : String) (vals : List Value)
    (hsh : ∀ r ∈ df.rows, r.2.length = df.columns.length)
    (hv : vals.length = df.rows.length) (j : Nat) (hj : j < df.rows.length)
    (hj2 : j < (dfSetColumn df n vals).rows.length) :
    rowCell (dfSetColumn df n vals).columns
        ((dfSetColumn df n vals).rows[j]).2 n = vals[j] := by
  have hcl : (df.rows[j]).2.length = df.columns.length :=
    hsh _ (List.getElem_mem hj)
  cases h : colIdx? df.columns n with
  | some i =>
    rw [dfSetColumn_columns_found df n vals i h,
      dfSetColumn_row_found df n vals i h j hj hv hj2,
      rowCell_found _ _ _ _ h]
    have hi : i < (df.rows[j]).2.length := by
      rw [hcl]; exact colIdx?_lt _ _ i h
    rw [List.getD_eq_getElem _ _ (by rw [List.length_set]; exact hi)]
    exact List.getElem_set_self _
  | none =>
    rw [dfSetColumn_columns_not_found df n vals h,
      dfSetColumn_row_not_found df n vals h j hj hv hj2]
    have hidx : colIdx? (df.columns ++ [n]) n = some df.columns.length := by
      rw [colIdx?_append_singleton_none df.columns n n h, if_pos rfl]
    rw [rowCell_found _ _ _ _ hidx]
    have hlen : df.columns.length
        < ((df.rows[j]).2 ++ [vals[j]]).length := by
      rw [List.length_append, hcl]
      simp
    rw [List.getD_eq_getElem _ _ hlen]
    rw [List.getElem_append_right (by omega)]
    simp [hcl]

theorem read_set_other (df : DataFrame) (n : String) (vals : List Value)
    (k : String) (hkn : k ≠ n)
    (hsh : ∀ r ∈ df.rows, r.2.length = df.columns.length)
    (hv : vals.length = df.rows.length) (j : Nat) (hj : j < df.rows.length)
    (hj2 : j < (dfSetColumn df n vals).rows.length) :
    rowCell (dfSetColumn df n vals).columns
        ((dfSetColumn df n vals).rows[j]).2 k
      = rowCell df.columns ((df.rows[j])).2 k := by
  have hcl : (df.rows[j]).2.length = df.columns.length :=
    hsh _ (List.getElem_mem hj)
  cases h : colIdx? df.columns n with
  | some i =>
    rw [dfSetColumn_columns_found df n vals i h,
      dfSetColumn_row_found df n vals i h j hj hv hj2]
    cases hk : colIdx? df.columns k with
    | none => rw [rowCell_not_found _ _ _ hk, rowCell_not_found _ _ _ hk]
    | some m =>
      rw [rowCell_found _ _ _ _ hk, rowCell_found _ _ _ _ hk]
      have hmi : m ≠ i := by
        intro hEq
        subst hEq
        have h1 := colIdx?_getElem? _ _ _ h
        have h2 := colIdx?_getElem? _ _ _ hk
        rw [h1] at h2
        injection h2 with h2
        exact hkn h2.symm
      have hm : m < (df.rows[j]).2.length := by
        rw [hcl]; exact colIdx?_lt _ _ m hk
      rw [List.getD_eq_getElem _ _ (by rw [List.length_set]; exact hm),
        List.getD_eq_getElem _ _ hm]
      exact List.getElem_set_ne (fun hEq => hmi hEq.symm) _
  | none =>
    rw [dfSetColumn_columns_not_found df n vals h,
      dfSetColumn_row_not_found df n vals h j hj hv hj2]
    cases hk : colIdx? df.columns k with
    | some m =>
      have hk' : colIdx? (df.columns ++ [n]) k = some m :=
        colIdx?_append_left _ _ _ m hk
      rw [rowCell_found _ _ _ _ hk', rowCell_found _ _ _ _ hk]
      have hm : m < (df.rows[j]).2.length := by
        rw [hcl]; exact colIdx?_lt _ _ m hk
      rw [List.getD_eq_getElem _ _ (by rw [List.length_append]; omega),
        List.getD_eq_getElem _ _ hm]
      exact List.getElem_append_left hm
    | none =>
      have hk' : colIdx? (df.columns ++ [n]) k = none := by
        rw [colIdx?_append_singleton_none df.columns k n hk,
          if_neg (fun hEq => hkn hEq.symm)]
      rw [rowCell_not_found _ _ _ hk', rowCell_not_found _ _ _ hk]

theorem newColCells_length (df0 : DataFrame) (feats : List String) :
    (newColCells df0 feats).length = df0.rows.length :=
  List.length_map _ _

theorem shaped_set (df0 df : DataFrame) (n : String) (vals : List Value)
    (hsh : Shaped df0 df) (hv : vals.length = df0.rows.length) :
    Shaped df0 (dfSetColumn df n vals) := by
  have hv' : vals.length = df.rows.length := by rw [hv, hsh.1]
  constructor
  · rw [dfSetColumn_rows_length df n vals hv']
    exact hsh.1
  · intro r hr
    cases h : colIdx? df.columns n with
    | some i =>
      rw [dfSetColumn_rows_eq_found df n vals i h] at hr
      obtain ⟨rv, hrv, hreq⟩ := List.mem_map.mp hr
      have hmem : rv.1 ∈ df.rows := by
        have := List.of_mem_zip (show (rv.1, rv.2) ∈ df.rows.zip vals from hrv)
        exact this.1
      rw [dfSetColumn_columns_found df n vals i h, ← hreq]
      simp only [List.length_set]
      exact hsh.2 rv.1 hmem
    | none =>
      rw [dfSetColumn_rows_eq_not_found df n vals h] at hr
      obtain ⟨rv, hrv, hreq⟩ := List.mem_map.mp hr
      have hmem : rv.1 ∈ df.rows := by
        have := List.of_mem_zip (show (rv.1, rv.2) ∈ df.rows.zip vals from hrv)
        exact this.1
      rw [dfSetColumn_columns_not_found df n vals h, ← hreq]
      simp only [List.length_append, List.length_cons, List.length_nil]
      rw [hsh.2 rv.1 hmem]

theorem shaped_setStep (df0 acc : DataFrame) (e : String × FeatureSpec)
    (hsh : Shaped df0 acc) : Shaped df0 (setStep df0 acc e) :=
  shaped_set df0 acc e.1 (newColCells df0 e.2.toList) hsh
    (newColCells_length df0 e.2.toList)

theorem shaped_fold (df0 : DataFrame) :
    ∀ (l : List (String × FeatureSpec)) (acc : DataFrame), Shaped df0 acc →
      Shaped df0 (l.foldl (setStep df0) acc) := by
  intro l
  induction l with
  | nil => intro acc h; exact h
  | cons e t ih =>
    intro acc h
    rw [List.foldl_cons]
    exact ih _ (shaped_setStep df0 acc e h)

theorem read_preserved_fold (df0 : DataFrame) (k : String) :
    ∀ (l : List (String × FeatureSpec)) (acc : DataFrame), Shaped df0 acc →
      k ∉ l.map Prod.fst →
      ∀ j, ∀ (_hj : j < df0.rows.length) (hj1 : j < acc.rows.length)
        (hj2 : j < (l.foldl (setStep df0) acc).rows.length),
      rowCell (l.foldl (setStep df0) acc).columns
          ((l.foldl (setStep df0) acc).rows[j]).2 k
        = rowCell acc.columns ((acc.rows[j])).2 k := by
  intro l
  induction l with
  | nil => intro acc _ _ j _ hj1 hj2; rfl
  | cons e t ih =>
    intro acc hsh hk j hj hj1 hj2
    have hj2' : j < (t.foldl (setStep df0) (setStep df0 acc e)).rows.length :=
      hj2
    show rowCell (t.foldl (setStep df0) (setStep df0 acc e)).columns
        ((t.foldl (setStep df0) (setStep df0 acc e)).rows[j]).2 k
      = rowCell acc.columns ((acc.rows[j])).2 k
    have hk1 : k ≠ e.1 := by
      intro hEq
      apply hk
      rw [List.map_cons, List.mem_cons]
      left; exact hEq
    have hkt : k ∉ t.map Prod.fst := by
      intro hmem
      apply hk
      rw [List.map_cons, List.mem_cons]
      right; exact hmem
    have hsh' : Shaped df0 (setStep df0 acc e) := shaped_setStep df0 acc e hsh
    have hj1' : j < (setStep df0 acc e).rows.length := by
      rw [hsh'.1]; exact hj
    rw [ih (setStep df0 acc e) hsh' hkt j hj hj1' hj2']
    exact read_set_other acc e.1 (newColCells df0 e.2.toList) k hk1 hsh.2
      (by rw [newColCells_length, hsh.1]) j hj1 hj1'

theorem newColCells_getElem (df0 : DataFrame) (feats : List String) (j : Nat)
    (hj : j < df0.rows.length)
    (hjn : j < (newColCells df0 feats).length) :
    (newColCells df0 feats)[j]
      = toDictOrAny (selRow df0.columns ((df0.rows[j])).2 feats) := by
  show (df0.rows.map (fun r => toDictOrAny (selRow df0.columns r.2 feats)))[j]
    = _
  rw [List.getElem_map]

theorem read_after_fold (df0 : DataFrame) :
    ∀ (l : List (String × FeatureSpec)) (acc : DataFrame), Shaped df0 acc →
      (l.map Prod.fst).Nodup →
      ∀ (k : String) (fs : FeatureSpec), (k, fs) ∈ l →
      ∀ j, ∀ (hj : j < df0.rows.length)
        (hj2 : j < (l.foldl (setStep df0) acc).rows.length),
      rowCell (l.foldl (setStep df0) acc).columns
          ((l.foldl (setStep df0) acc).rows[j]).2 k
        = toDictOrAny (selRow df0.columns ((df0.rows[j])).2 fs.toList) := by
  intro l
  induction l with
  | nil => intro acc _ _ k fs hmem; exact absurd hmem (by simp)
  | cons e t ih =>
    intro acc hsh hnd k fs hmem j hj hj2
    have hj2' : j < (t.foldl (setStep df0) (setStep df0 acc e)).rows.length :=
      hj2
    show rowCell (t.foldl (setStep df0) (setStep df0 acc e)).columns
        ((t.foldl (setStep df0) (setStep df0 acc e)).rows[j]).2 k
      = toDictOrAny (selRow df0.columns ((df0.rows[j])).2 fs.toList)
    have hsh' : Shaped df0 (setStep df0 acc e) := shaped_setStep df0 acc e hsh
    have hj1' : j < (setStep df0 acc e).rows.length := by
      rw [hsh'.1]; exact hj
    rw [List.map_cons] at hnd
    rcases List.mem_cons.mp hmem with hEq | hmemt
    · subst hEq
      have hknt : k ∉ t.map Prod.fst := (List.nodup_cons.mp hnd).1
      rw [read_preserved_fold df0 k t (setStep df0 acc (k, fs)) hsh' hknt j hj
        hj1' hj2']
      have hv : (newColCells df0 (k, fs).2.toList).length = acc.rows.length := by
        rw [newColCells_length, hsh.1]
      have hjacc : j < acc.rows.length := by rw [hsh.1]; exact hj
      have hss := read_set_self acc (k, fs).1
        (newColCells df0 (k, fs).2.toList) hsh.2 hv j hjacc hj1'
      have hjn : j < (newColCells df0 fs.toList).length := by
        rw [newColCells_length]; exact hj
      have hss' : rowCell (setStep df0 acc (k, fs)).columns
          ((setStep df0 acc (k, fs)).rows[j]).2 k
          = (newColCells df0 fs.toList)[j] := hss
      rw [hss']
      exact newColCells_getElem df0 fs.toList j hj hjn
    · exact ih (setStep df0 acc e) hsh' (List.nodup_cons.mp hnd).2 k fs hmemt
        j hj hj2'

theorem rowCell_map_self (keys : List String) (g : String → Value)
    (name : String) (hmem : name ∈ keys) :
    rowCell keys (keys.map g) name = g name := by
  induction keys with
  | nil => exact absurd hmem (by simp)
  | cons c t ih =>
    by_cases hc : c = name
    · have hidx : colIdx? (c :: t) name = some 0 := by
        rw [colIdx?_cons, if_pos hc]
      rw [rowCell_found _ _ _ _ hidx, List.map_cons, List.getD_cons_zero, hc]
    · have hmt : name ∈ t := by
        rcases List.mem_cons.mp hmem with h | h
        · exact absurd h.symm hc
        · exact h
      cases ht : colIdx? t name with
      | none => exact absurd hmt ((colIdx?_eq_none_iff t name).mp ht)
      | some m =>
        have hidx : colIdx? (c :: t) name = some (m + 1) := by
          rw [colIdx?_cons, if_neg hc, ht]
          rfl
        rw [rowCell_found _ _ _ _ hidx, List.map_cons, List.getD_cons_succ]
        have ihh := ih hmt
        rw [rowCell_found _ _ _ _ ht] at ihh
        exact ihh

theorem selRow_map_fst (cols : List String) (cells : List Value)
    (feats : List String) : (selRow cols cells feats).map Prod.fst = feats := by
  induction feats with
  | nil => rfl
  | cons f t ih =>
    show (f, rowCell cols cells f).1 :: (selRow cols cells t).map Prod.fst
      = f :: t
    rw [ih]

theorem toDictOrAny_record (value : List (String × Value))
    (h : 1 < value.length) :
    toDictOrAny value = Value.record (pyDict value) := by
  unfold toDictOrAny
  rw [if_pos h]

/-- C1.  For a mapping entry listing the columns `feats`, the mapped cell of
every row is: the record of the selected `(column, cell)` pairs when the
selection has more than one value, and the bare cell (no one-entry record)
when the listed selection is the degenerate single-column one. -/
theorem mapped_cell_record_or_scalar (ds : DataSourceState) (name : String)
    (feats : List String)
    (hmem : (name, FeatureSpec.many feats) ∈ ds.mapping)
    (hnd : (ds.mapping.map Prod.fst).Nodup)
    (hfe : feats.Nodup)
    (hcols : ∀ e ∈ ds.mapping, ∀ c ∈ e.2.toList, c ∈ ds.df.columns)
    (hwf : ds.df.WF) :
    ∃ mdf, (to_mapped_dataframe ds).1 = .ok mdf ∧
      mdf.rows.length = ds.df.rows.length ∧
      ∀ j, ∀ (hj : j < ds.df.rows.length) (hj2 : j < mdf.rows.length),
        (1 < feats.length →
          rowCell mdf.columns ((mdf.rows[j])).2 name
            = Value.record (selRow ds.df.columns ((ds.df.rows[j])).2 feats)) ∧
        (∀ c, feats = [c] →
          rowCell mdf.columns ((mdf.rows[j])).2 name
            = rowCell ds.df.columns ((ds.df.rows[j])).2 c) := by
  have hemp : ds.mapping.isEmpty = false := by
    cases hmp : ds.mapping with
    | nil => rw [hmp] at hmem; exact absurd hmem (by simp)
    | cons a t => rfl
  have hok : (to_mapped_dataframe ds).1
      = .ok (dfProject (ds.mapping.foldl (setStep ds.df) ds.df)
        (ds.mapping.map Prod.fst)) := by
    unfold to_mapped_dataframe
    rw [hemp]
    simp only [Bool.false_eq_true, if_false]
    rw [foldl_mapStep_ok ds.df ds.mapping ds.df hcols]
    rfl
  have hsh0 : Shaped ds.df ds.df := ⟨rfl, hwf⟩
  have hshF : Shaped ds.df (ds.mapping.foldl (setStep ds.df) ds.df) :=
    shaped_fold ds.df ds.mapping ds.df hsh0
  have hlenp : (dfProject (ds.mapping.foldl (setStep ds.df) ds.df)
      (ds.mapping.map Prod.fst)).rows.length = ds.df.rows.length := by
    show ((ds.mapping.foldl (setStep ds.df) ds.df).rows.map _).length = _
    rw [List.length_map]
    exact hshF.1
  refine ⟨_, hok, hlenp, ?_⟩
  intro j hj hj2
  have hjF : j < (ds.mapping.foldl (setStep ds.df) ds.df).rows.length := by
    rw [hshF.1]; exact hj
  have hrow : (dfProject (ds.mapping.foldl (setStep ds.df) ds.df)
      (ds.mapping.map Prod.fst)).rows[j]
      = (((ds.mapping.foldl (setStep ds.df) ds.df).rows[j]).1,
        (ds.mapping.map Prod.fst).map
          (rowCell (ds.mapping.foldl (setStep ds.df) ds.df).columns
            ((ds.mapping.foldl (setStep ds.df) ds.df).rows[j]).2)) := by
    show ((ds.mapping.foldl (setStep ds.df) ds.df).rows.map
        (fun r => (r.1, (ds.mapping.map Prod.fst).map
          (rowCell (ds.mapping.foldl (setStep ds.df) ds.df).columns r.2))))[j]
      = _
    rw [List.getElem_map]
  have hnamemem : name ∈ ds.mapping.map Prod.fst :=
    List.mem_map_of_mem Prod.fst hmem
  have hcell : rowCell (dfProject (ds.mapping.foldl (setStep ds.df) ds.df)
      (ds.mapping.map Prod.fst)).columns
      ((dfProject (ds.mapping.foldl (setStep ds.df) ds.df)
        (ds.mapping.map Prod.fst)).rows[j]).2 name
      = rowCell (ds.mapping.foldl (setStep ds.df) ds.df).columns
        ((ds.mapping.foldl (setStep ds.df) ds.df).rows[j]).2 name := by
    rw [hrow]
    exact rowCell_map_self _ _ _ hnamemem
  have hread := read_after_fold ds.df ds.mapping ds.df hsh0 hnd name
    (FeatureSpec.many feats) hmem j hj hjF
  rw [show (FeatureSpec.many feats).toList = feats from rfl] at hread
  constructor
  · intro hlen
    rw [hcell, hread]
    have hlsel : 1 < (selRow ds.df.columns ((ds.df.rows[j])).2 feats).length := by
      rw [show (selRow ds.df.columns ((ds.df.rows[j])).2 feats).length
          = feats.length from List.length_map _ _]
      exact hlen
    rw [toDictOrAny_record _ hlsel]
    congr 1
    apply pyDict_eq_self
    rw [selRow_map_fst]
    exact hfe
  · intro c hc
    subst hc
    rw [hcell, hread]
    rfl

/-- Witness for C1 at a two-column 1:N entry over one row (the record case)
together with a single-column entry (the scalar case). -/
theorem mapped_cell_witness :
    ("persons", FeatureSpec.many ["a", "b"])
        ∈ [("persons", FeatureSpec.many ["a", "b"]),
           ("one", FeatureSpec.many ["a"])] ∧
    ∃ mdf,
      (to_mapped_dataframe ⟨⟨["a", "b"],
          [(Value.int 0, [Value.str "Alice", Value.str "Smith"])]⟩,
          [("persons", FeatureSpec.many ["a", "b"]),
           ("one", FeatureSpec.many ["a"])]⟩).1 = .ok mdf ∧
      mdf.rows.length
        = (DataFrame.mk ["a", "b"]
            [(Value.int 0, [Value.str "Alice", Value.str "Smith"])]).rows.length ∧
      ∀ j, ∀ (hj : j < (DataFrame.mk ["a", "b"]
            [(Value.int 0,
              [Value.str "Alice", Value.str "Smith"])]).rows.length)
        (hj2 : j < mdf.rows.length),
        (1 < (["a", "b"] : List String).length →
          rowCell mdf.columns ((mdf.rows[j])).2 "persons"
            = Value.record (selRow ["a", "b"]
              (((DataFrame.mk ["a", "b"]
                [(Value.int 0, [Value.str "Alice", Value.str "Smith"])]).rows[j])).2
              ["a", "b"])) ∧
        (∀ c, (["a", "b"] : List String) = [c] →
          rowCell mdf.columns ((mdf.rows[j])).2 "persons"
            = rowCell ["a", "b"]
              (((DataFrame.mk ["a", "b"]
                [(Value.int 0, [Value.str "Alice", Value.str "Smith"])]).rows[j])).2
              c) :=
  ⟨by decide,
   mapped_cell_record_or_scalar
     ⟨⟨["a", "b"], [(Value.int 0, [Value.str "Alice", Value.str "Smith"])]⟩,
       [("persons", FeatureSpec.many ["a", "b"]),
        ("one", FeatureSpec.many ["a"])]⟩
     "persons" ["a", "b"] (by decide) (by decide) (by decide) (by decide)
     (by unfold DataFrame.WF; decide)⟩

end BiomeData
